import Mathlib

/-!
# Verification of the ydbf DBF reader (`src/ydbfdm`)

A shallow embedding of the DBF/XBase reader in `ydbfdm/reader.py` and the
common library `ydbfdm/lib.py`, together with theorems settling the frozen
claims about the natural-language specification.

Modelling conventions:
* Python `bytes` values are `List Nat` (each element a byte value 0..255).
* Python `str` values are Lean `String`s.
* Fallible Python code (functions that may raise) returns `Except`/`Option`.
* Python `float` is IEEE-754 binary64, modelled exactly (`PyFloat`): a
  finite value is the exact rational of its bits, produced by correct
  round-to-nearest-even (`nearestDouble`); the special values are the
  signed infinities and nan.  `float(str)` accepts an optional sign, the
  case-insensitive tokens `inf`/`infinity`/`nan`, and decimal numerals
  with optional exponent and PEP 515 underscores, overflowing to a
  signed infinity — CPython's correctly-rounded conversion.
* The binary `struct.unpack` layer is abstracted: a header is modelled as
  the tuple of its already-unpacked integer fields (`RawHeader`), and a
  field descriptor as `RawFieldDesc`.
-/

deriving instance DecidableEq for Except

/-! ## Byte-string utilities (Python `bytes` methods) -/

/-- ASCII whitespace recognised by Python `bytes.strip` / `bytes.rstrip`. -/
def isSpaceB (b : Nat) : Bool :=
  b = 32 || b = 9 || b = 10 || b = 13 || b = 11 || b = 12

/-- ASCII decimal digit test (`bytes.isdigit` element test). -/
def isDigitB (b : Nat) : Bool :=
  48 ≤ b && b ≤ 57

/-- `bytes.rstrip(chars)`: drop trailing bytes satisfying `p`. -/
def rstripB (p : Nat → Bool) (bs : List Nat) : List Nat :=
  (bs.reverse.dropWhile p).reverse

/-- `bytes.strip()`: drop leading and trailing ASCII whitespace. -/
def stripWsB (bs : List Nat) : List Nat :=
  rstripB isSpaceB (bs.dropWhile isSpaceB)

/-- `val.rstrip(b"\x00")` from `YDbfReader.records` (reader.py:264). -/
def rstrip0 (bs : List Nat) : List Nat :=
  rstripB (fun b => b = 0) bs

/-- `bytes.isdigit()`: true iff non-empty and all ASCII digits. -/
def pyBytesIsdigit (bs : List Nat) : Bool :=
  !bs.isEmpty && bs.all isDigitB

/-- Byte list of a Lean string literal (ASCII contents). -/
def bytesOf (s : String) : List Nat :=
  s.data.map Char.toNat

/-- Numeric value of a big-endian list of ASCII digit bytes
(`int(...)` of an all-digit string, leading zeros allowed). -/
def digitsValB (bs : List Nat) : Nat :=
  bs.foldl (fun a b => a * 10 + (b - 48)) 0

/-- Apply an optional sign to a digit value. -/
def condNeg (neg : Bool) (n : Nat) : ℤ :=
  if neg then -(n : ℤ) else (n : ℤ)

/-- Fuel-driven big-endian decimal digit rendering (ASCII codes),
empty for `n = 0`; fuel `n` suffices for any `n ≥ 1`. -/
def digitsRevF : Nat → Nat → List Nat
  | 0, _ => []
  | f + 1, n => if n = 0 then [] else (48 + n % 10) :: digitsRevF f (n / 10)

/-- Decimal rendering of a natural number as ASCII digit bytes (`"%d" % n`). -/
def natStr (n : Nat) : List Nat :=
  if n = 0 then [48] else (digitsRevF n n).reverse

/-- Left-pad a digit string with ASCII zeros up to width `d`. -/
def padZeros (d : Nat) (l : List Nat) : List Nat :=
  List.replicate (d - l.length) 48 ++ l

/-! ## Exact model of Python `float` (IEEE-754 binary64) -/

/-- An exact rational as an unreduced fraction `num / den`.  Every
construction below keeps `den` a positive product of powers, so no
normalisation is ever needed and all arithmetic stays on plain integer
operations. -/
structure Frac where
  num : ℤ
  den : ℕ
  deriving DecidableEq

/-- The rational value a `Frac` denotes. -/
def Frac.val (f : Frac) : ℚ :=
  (f.num : ℚ) / (f.den : ℚ)

/-- Exact product of fractions. -/
def fMul (a b : Frac) : Frac :=
  ⟨a.num * b.num, a.den * b.den⟩

/-- Absolute value of a fraction. -/
def fAbs (a : Frac) : Frac :=
  ⟨|a.num|, a.den⟩

/-- Negation of a fraction. -/
def fNeg (a : Frac) : Frac :=
  ⟨-a.num, a.den⟩

/-- `a ≤ b` by cross-multiplication (denominators positive). -/
def fLe (a b : Frac) : Bool :=
  a.num * (b.den : ℤ) ≤ b.num * (a.den : ℤ)

/-- Round the exact value `a.num / a.den` (denominator positive) to the
nearest integer, ties to even. -/
def roundHalfEven (a : Frac) : ℤ :=
  let f := Int.fdiv a.num (a.den : ℤ)
  let rnum := a.num - f * (a.den : ℤ)
  if 2 * rnum < (a.den : ℤ) then f
  else if (a.den : ℤ) < 2 * rnum then f + 1
  else if f % 2 = 0 then f else f + 1

/-- Fuel-driven base-2 logarithm on naturals (floor), kernel-reducible. -/
def natLog2F : Nat → Nat → Nat
  | 0, _ => 0
  | f + 1, n => if 2 ≤ n then natLog2F f (n / 2) + 1 else 0

/-- `⌊log₂ n⌋` for `n ≥ 1` (0 for `n = 0`). -/
def natLog2 (n : Nat) : Nat :=
  natLog2F n n

/-- `2 ^ e` as a fraction, for an integer exponent. -/
def pow2F : ℤ → Frac
  | .ofNat n => ⟨(2 ^ n : ℕ), 1⟩
  | .negSucc n => ⟨1, 2 ^ (n + 1)⟩

/-- Largest `e` with `2 ^ e ≤ a`, for positive `a`. -/
def log2floorF (a : Frac) : ℤ :=
  let c : ℤ := (natLog2 a.num.natAbs : ℤ) - (natLog2 a.den : ℤ)
  if fLe (pow2F c) a then c else c - 1

/-- A CPython `float` value: the exact rational of a finite binary64, a
signed infinity, or nan.  (`float("-nan")` sets the sign bit internally,
but percent-formatting renders any nan as plain `nan`, so one `nan`
constructor captures the behaviour this codec can observe.) -/
inductive PyFloat where
  | finite (f : Frac)
  | inf (neg : Bool)
  | nan
  deriving DecidableEq

/-- Exact value of the IEEE-754 binary64 nearest to `q`
(round-to-nearest-even, subnormals included).  Values that round to
`2 ^ 1024` or beyond overflow to a signed infinity — which is what
CPython `float()` returns for oversized literals such as `1e999`. -/
def nearestDouble (q : Frac) : PyFloat :=
  if q.num = 0 then .finite ⟨0, 1⟩
  else
    let a := fAbs q
    let e := log2floorF a
    let ulpExp : ℤ := max (e - 52) (-1074)
    let m := roundHalfEven (fMul a (pow2F (-ulpExp)))
    let v := fMul ⟨m, 1⟩ (pow2F ulpExp)
    if fLe (pow2F 1024) v then .inf (decide (q.num < 0))
    else .finite (if q.num < 0 then fNeg v else v)

/-! ## Decimal-numeral parsing and formatting -/

/-- Strip one optional leading ASCII sign, returning (isNegative, rest). -/
def splitSign : List Nat → Bool × List Nat
  | [] => (false, [])
  | b :: r =>
      if b = 45 then (true, r)
      else if b = 43 then (false, r)
      else (false, b :: r)

/-- ASCII lower-casing of a byte string (case-insensitive token tests). -/
def asciiLower (bs : List Nat) : List Nat :=
  bs.map (fun b => if 65 ≤ b && b ≤ 90 then b + 32 else b)

/-- PEP 515 underscore placement: every underscore must be immediately
surrounded by ASCII digits.  The first argument is the previous byte. -/
def underscoresOkAux : Option Nat → List Nat → Bool
  | _, [] => true
  | prev, 95 :: rest =>
      (match prev with
       | some p => isDigitB p
       | none => false) &&
      (match rest with
       | r :: _ => isDigitB r
       | [] => false) &&
      underscoresOkAux (some 95) rest
  | _, b :: rest => underscoresOkAux (some b) rest

/-- PEP 515 underscore check for a whole numeric token. -/
def underscoresOk (bs : List Nat) : Bool :=
  underscoresOkAux none bs

/-- Unsigned mantissa of a CPython float literal (underscores already
removed): digits with an optional decimal point, at least one digit.
Yields the coefficient and the number of fractional digits. -/
def parseMantissaF (bs : List Nat) : Option (ℤ × Nat) :=
  let ip := bs.takeWhile isDigitB
  match bs.dropWhile isDigitB with
  | [] => if ip.isEmpty then none else some ((digitsValB ip : ℤ), 0)
  | 46 :: fp =>
      if fp.all isDigitB && !(ip.isEmpty && fp.isEmpty) then
        some ((digitsValB ip : ℤ) * ((10 ^ fp.length : ℕ) : ℤ) + (digitsValB fp : ℤ),
          fp.length)
      else none
  | _ => none

/-- A signed all-digit exponent part. -/
def parseExpPart : List Nat → Option ℤ
  | [] => none
  | 45 :: r => if pyBytesIsdigit r then some (-(digitsValB r : ℤ)) else none
  | 43 :: r => if pyBytesIsdigit r then some ((digitsValB r : ℤ)) else none
  | bs => if pyBytesIsdigit bs then some ((digitsValB bs : ℤ)) else none

/-- Split a token at its first `e`/`E`, if any. -/
def splitAtExp : List Nat → List Nat × Option (List Nat)
  | [] => ([], none)
  | b :: r =>
      if b = 101 ∨ b = 69 then ([], some r)
      else
        let p := splitAtExp r
        (b :: p.1, p.2)

/-- The exact rational `mant * 10 ^ (e - fracDigits)` of a scientific
literal, as a fraction. -/
def sciToFrac (mant : ℤ) (fracDigits : Nat) (e : ℤ) : Frac :=
  match e - (fracDigits : ℤ) with
  | .ofNat n => ⟨mant * ((10 ^ n : ℕ) : ℤ), 1⟩
  | .negSucc n => ⟨mant, 10 ^ (n + 1)⟩

/-- An unsigned CPython float numeral (underscores removed): mantissa
with an optional exponent. -/
def parseNumeralF (bs : List Nat) : Option Frac :=
  match splitAtExp bs with
  | (m, none) =>
      match parseMantissaF m with
      | some p => some (sciToFrac p.1 p.2 0)
      | none => none
  | (m, some ebs) =>
      match parseMantissaF m, parseExpPart ebs with
      | some p, some e => some (sciToFrac p.1 p.2 e)
      | _, _ => none

/-- CPython `float(s)` on a stripped byte string: an optional sign, then
(case-insensitively) `inf`/`infinity`/`nan`, or a decimal numeral with
optional exponent and PEP 515 underscores; finite values are rounded to
the nearest binary64 (overflowing to a signed infinity).  `none` models
`ValueError`. -/
def pyFloatOfBytes (bs : List Nat) : Option PyFloat :=
  let neg := (splitSign bs).1
  let body := (splitSign bs).2
  let lower := asciiLower body
  if lower = bytesOf "inf" ∨ lower = bytesOf "infinity" then some (.inf neg)
  else if lower = bytesOf "nan" then some .nan
  else if underscoresOk body then
    match parseNumeralF (body.filter (fun b => b ≠ 95)) with
    | some f => some (nearestDouble (if neg then fNeg f else f))
    | none => none
  else none

/-- CPython `int(s)` on a stripped byte string: optional sign then
digits, with PEP 515 underscores. -/
def parseIntB (bs : List Nat) : Option ℤ :=
  match bs with
  | [] => none
  | _ =>
      let neg := (splitSign bs).1
      let body := (splitSign bs).2
      if underscoresOk body && pyBytesIsdigit (body.filter (fun b => b ≠ 95)) then
        some (condNeg neg (digitsValB (body.filter (fun b => b ≠ 95))))
      else none

/-- `("%.<d>f" % x)`: a finite double's exact binary value is formatted
correctly rounded to `d` fractional digits, ties to even, rendered as
sign / integer digits / point / exactly `d` digits; infinities render as
`inf` with their sign and any nan renders as unsigned `nan`. -/
def formatF (d : Nat) : PyFloat → List Nat
  | .finite x =>
      let m := roundHalfEven (fMul x ⟨((10 ^ d : ℕ) : ℤ), 1⟩)
      let a := m.natAbs
      let ip := natStr (a / 10 ^ d)
      let fr := padZeros d (natStr (a % 10 ^ d))
      let body := if d = 0 then ip else ip ++ 46 :: fr
      if m < 0 then 45 :: body else body
  | .inf neg => if neg then 45 :: bytesOf "inf" else bytesOf "inf"
  | .nan => bytesOf "nan"

/-- Python `decimal.Decimal` value as produced from a plain numeral string:
signed coefficient and number of fractional digits (exponent `-scale`).
The value denoted is exactly `coeff / 10 ^ scale`. -/
structure PyDec where
  coeff : ℤ
  scale : Nat
  deriving DecidableEq

/-- Exact rational value of a `PyDec`. -/
def PyDec.val (p : PyDec) : ℚ :=
  (p.coeff : ℚ) / ((10 ^ p.scale : Nat) : ℚ)

/-- A Python `decimal.Decimal` as produced from the strings this codec
formats: a finite fixed-point value, a signed `Infinity`, or `NaN`. -/
inductive PyDecimal where
  | fin (d : PyDec)
  | inf (neg : Bool)
  | nan
  deriving DecidableEq

/-- The fixed-point scale of a decode result, when it has one:
`Infinity` and `NaN` have none. -/
def decScale : Option PyDecimal → Option Nat
  | some (.fin d) => some d.scale
  | _ => none

/-- Unsigned part of `Decimal(string)` parsing on the plain numeral
grammar: digits, optional point, digits. -/
def parseDecAux (neg : Bool) (r : List Nat) : Option PyDec :=
  let ip := r.takeWhile isDigitB
  match r.dropWhile isDigitB with
  | [] => if ip.isEmpty then none else some ⟨condNeg neg (digitsValB ip), 0⟩
  | 46 :: fp =>
      if fp.all isDigitB && !(ip.isEmpty && fp.isEmpty) then
        some ⟨condNeg neg (digitsValB (ip ++ fp)), fp.length⟩
      else none
  | _ => none

/-- `Decimal(string)` on the grammar of the strings `formatF` produces:
an optional sign, then (case-insensitively) `inf`/`infinity`/`nan` or
digits with an optional point; `none` models `InvalidOperation`. -/
def parseDecimalStr (bs : List Nat) : Option PyDecimal :=
  if bs.isEmpty then none
  else
    match splitSign bs with
    | (neg, body) =>
        if asciiLower body = bytesOf "inf" ∨ asciiLower body = bytesOf "infinity" then
          some (.inf neg)
        else if asciiLower body = bytesOf "nan" then some .nan
        else (parseDecAux neg body).map PyDecimal.fin

/-! ## The numeric field converters (reader.py `_makeActions`) -/

/-- `dbf2py_decimal` (reader.py:106-107):
`Decimal(("%%.%df" % dec) % float(val.strip() or 0.0))`.
`none` models the `ValueError` a non-numeric field raises in `float()`;
inf/nan field content flows through to the special `Decimal` values. -/
def dbf2py_decimal (dec : Nat) (val : List Nat) : Option PyDecimal :=
  match (if (stripWsB val).isEmpty then some (PyFloat.finite ⟨0, 1⟩)
      else pyFloatOfBytes (stripWsB val)) with
  | none => none
  | some x => parseDecimalStr (formatF dec x)

/-- `dbf2py_integer` (reader.py:103-104):
`(val.strip() or 0) and int(val.strip())`. -/
def dbf2py_integer (val : List Nat) : Option ℤ :=
  let s := stripWsB val
  if s.isEmpty then some 0 else parseIntB s

/-- `dbf2py_logic` (reader.py:94-95):
`val.strip() in (b"Y", b"y", b"T", b"t")`. -/
def dbf2py_logic (val : List Nat) : Bool :=
  let s := stripWsB val
  s = [89] || s = [121] || s = [84] || s = [116]

/-! ## Dates (`lib.dbf2date`, `datetime.date` validity) -/

/-- A calendar date as `datetime.date` holds it. -/
structure CalDate where
  y : Nat
  m : Nat
  d : Nat
  deriving DecidableEq

/-- Proleptic Gregorian leap-year rule (Python `calendar.isleap`). -/
def isLeap (y : Nat) : Bool :=
  y % 4 = 0 && (y % 100 ≠ 0 || y % 400 = 0)

/-- Days in a month, as `datetime.date` validates them. -/
def daysInMonth (y m : Nat) : Nat :=
  if m = 2 then (if isLeap y then 29 else 28)
  else if m = 4 || m = 6 || m = 9 || m = 11 then 30
  else 31

/-- `datetime.date(y, m, d)` constructor validity
(`MINYEAR = 1`, `MAXYEAR = 9999`). -/
def dateOk (y m d : Nat) : Bool :=
  1 ≤ y && y ≤ 9999 && 1 ≤ m && m ≤ 12 && 1 ≤ d && d ≤ daysInMonth y m

/-- `lib.dbf2date` (lib.py:115-127).  The input is an optional byte string;
`Except.error ()` models the `ValueError` that `datetime.date` raises when
the three digit groups do not form a valid calendar date. -/
def dbf2date : Option (List Nat) → Except Unit (Option CalDate)
  | none => .ok none
  | some bs =>
      if !pyBytesIsdigit bs || bs.length ≠ 8 then .ok none
      else
        let y := digitsValB (bs.take 4)
        let m := digitsValB ((bs.drop 4).take 2)
        let d := digitsValB (bs.drop 6)
        if dateOk y m d then .ok (some ⟨y, m, d⟩) else .error ()

/-! ## Format catalog (lib.py) -/

/-- `lib.ENCODINGS` (lib.py:24-50), in source (insertion) order:
language-driver byte -> (codec name, human label).  Note the two entries
`0x4D` and `0x7A` share the codec name `"cp936"`. -/
def ENCODINGS : List (Nat × String × String) := [
  (0x00, "ascii", "ASCII"),
  (0x01, "cp437", "DOS USA"),
  (0x02, "cp850", "DOS Multilingual"),
  (0x03, "cp1252", "Windows ANSI"),
  (0x04, "mac_roman", "Standard Macintosh"),
  (0x64, "cp852", "EE MS-DOS"),
  (0x65, "cp866", "Russian MS-DOS"),
  (0x66, "cp865", "Nordic MS-DOS"),
  (0x67, "cp861", "Icelandic MS-DOS"),
  (0x6A, "cp737", "Greek MS-DOS (437G)"),
  (0x6B, "cp857", "Turkish MS-DOS"),
  (0x96, "mac_cyrillic", "Russian Macintosh"),
  (0x97, "mac_latin2", "Eastern Europe Macintosh"),
  (0x98, "mac_greek", "Greek Macinstosh"),
  (0xC8, "cp1250", "Windows EE"),
  (0xC9, "cp1251", "Russian Windows"),
  (0xCA, "cp1254", "Turkish Windows"),
  (0xCB, "cp1253", "Greek Windows"),
  (0x4D, "cp936", "Chinese GBK (PRC)"),
  (0x7A, "cp936", "Chinese Simplified (PRC, Singapore) Windows")]

/-- `ENCODINGS.get(code)`: dictionary lookup (keys are distinct, so
first-match on the association list is the dict lookup). -/
def encGet (c : Nat) : Option (String × String) :=
  (ENCODINGS.find? (fun e => e.1 = c)).map (fun e => e.2)

/-- `lib.REVERSE_ENCODINGS` lookup (lib.py:52-54).  The dict is built from
`ENCODINGS.items()` in insertion order, so for a duplicated codec name the
LAST insertion wins — hence lookup on the reversed list. -/
def reverseEncGet (name : String) : Option (Nat × String) :=
  (ENCODINGS.reverse.find? (fun e => e.2.1 = name)).map (fun e => (e.1, e.2.2))

/-- `lib.SUPPORTED_SIGNATURES = (0x03, 0x04, 0x05)` (lib.py:76).
(`lib.SIGNATURES` is used only to build diagnostic messages and carries no
behaviour, so it is not modelled.) -/
def SUPPORTED_SIGNATURES : List Nat := [0x03, 0x04, 0x05]

/-! ## Header reading (reader.py `_readHeader`) -/

/-- The eight values `struct.unpack(lib.HEADER_FORMAT, fh.read(32))`
yields: signature, year, month, day bytes; record count (u32); header
length (u16); record size (u16); language-driver byte. -/
structure RawHeader where
  sig : Nat
  year : Nat
  month : Nat
  day : Nat
  numrec : Nat
  lenheader : Nat
  reclen : Nat
  lang : Nat
  deriving DecidableEq

/-- One 32-byte field descriptor as unpacked by
`lib.FIELD_DESCRIPTION_FORMAT`: 11 name bytes, type byte, size byte,
decimal-count byte. -/
structure RawFieldDesc where
  nameBytes : List Nat
  typ : Nat
  size : Nat
  deci : Nat
  deriving DecidableEq

/-- A resolved field `(NAME, TYPE, SIZE, DECIMAL)`. -/
structure FieldDesc where
  name : String
  typ : String
  size : Nat
  dec : Nat
  deriving DecidableEq

/-- Errors surfaced during reader initialisation, by raise site.
`badCreationDate`, `unsupportedSignature`, `unknownFieldType`,
`badTerminator`, `cannotResolveEncoding` and `noConverter` are Python
`ValueError`s; `nonAsciiInHeader` is the `UnicodeDecodeError` of
`.decode("ascii")`; `structuralCheckFailed` is the `AssertionError` of the
strict reader. -/
inductive InitErr where
  | badCreationDate
  | unsupportedSignature (sig : Nat)
  | nonAsciiInHeader
  | unknownFieldType (t : Nat)
  | badTerminator (t : Nat)
  | cannotResolveEncoding (lang : Nat)
  | noConverter (name : String)
  | structuralCheckFailed (msg : String)
  deriving DecidableEq

/-- Year normalisation of `_readHeader` (reader.py:146-149):
`year = year + 1900; if year < 1950: year = year + 100`. -/
def normYear (b : Nat) : Nat :=
  let y := b + 1900
  if y < 1950 then y + 100 else y

/-- `bytes.decode("ascii")` (lib.SYSTEM_ENCODING): fails on any byte
outside 0..127. -/
def asciiDecodeE (bs : List Nat) : Except InitErr String :=
  if bs.all (fun b => b < 128) then .ok (String.mk (bs.map Char.ofNat))
  else .error .nonAsciiInHeader

/-- Error-propagating list traversal (the semantics of a Python `for`
loop whose body may raise). -/
def exMapM (f : α → Except ε β) : List α → Except ε (List β)
  | [] => .ok []
  | a :: l => do
      let b ← f a
      let r ← exMapM f l
      pure (b :: r)

/-- Decoding of one field descriptor (reader.py:160-171): trim the name at
its first NUL, decode type and name as ASCII, reject unknown type tags. -/
def parseFieldDesc (rd : RawFieldDesc) : Except InitErr FieldDesc := do
  let typS ← asciiDecodeE [rd.typ]
  let nameS ← asciiDecodeE (rd.nameBytes.takeWhile (fun b => b ≠ 0))
  if typS = "C" ∨ typS = "D" ∨ typS = "L" ∨ typS = "N" then
    pure ⟨nameS, typS, rd.size, rd.deci⟩
  else .error (.unknownFieldType rd.typ)

/-- The synthetic deletion-flag field prepended by `_readHeader`
(reader.py:183): `("_deletion_flag", lib.CHAR, 1, 0)`. -/
def deletionFlagField : FieldDesc :=
  ⟨"_deletion_flag", "C", 1, 0⟩

/-- The state `_readHeader` leaves behind. -/
structure HeaderCore where
  sig : Nat
  dt : CalDate
  rawLang : Nat
  builtinFields : List FieldDesc
  allFields : List FieldDesc
  recsize : Nat
  numrec : Nat
  lenheader : Nat
  numfields : ℤ
  fieldNames : List String
  deriving DecidableEq

/-- `YDbfReader._readHeader` (reader.py:137-196) on the already-unpacked
header values, the stream's descriptor area and the terminator byte.
Steps in source order: creation date (can raise), signature check,
`(lenheader - 33) // 32` descriptors (Python floor division, possibly
negative), terminator check, then the derived fields.  The constructor's
`fields` argument plays no role here: `__init__` resets `self.fields` to
`[]` (reader.py:62) before `_readHeader` runs, so line 186 always installs
the builtin fields.  `recsize` is the sum of the field sizes
(`calcsize` of the concatenated `%ds` formats). -/
def readHeader (h : RawHeader) (descs : List RawFieldDesc) (term : Nat) :
    Except InitErr HeaderCore :=
  if ¬ dateOk (normYear h.year) h.month h.day then .error .badCreationDate
  else if ¬ (h.sig ∈ SUPPORTED_SIGNATURES) then .error (.unsupportedSignature h.sig)
  else
    match exMapM parseFieldDesc
        (descs.take (Int.fdiv ((h.lenheader : ℤ) - 33) 32).toNat) with
    | .error e => .error e
    | .ok flds =>
        if term ≠ 0x0d then .error (.badTerminator term)
        else
          .ok { sig := h.sig
                dt := ⟨normYear h.year, h.month, h.day⟩
                rawLang := h.lang
                builtinFields := flds
                allFields := deletionFlagField :: flds
                recsize := ((deletionFlagField :: flds).map FieldDesc.size).sum
                numrec := h.numrec
                lenheader := h.lenheader
                numfields := Int.fdiv ((h.lenheader : ℤ) - 33) 32
                fieldNames := flds.map FieldDesc.name }

/-! ## Encoding resolution (reader.py `_defineEncoding`) -/

/-- Python truthiness of an optional string (`if self.explicit_encoding:`,
`if self.encoding`): `None` and the empty string are falsy. -/
def pyTruthyStr : Option String → Bool
  | some s => s ≠ ""
  | none => false

/-- `YDbfReader._defineEncoding` (reader.py:198-212).  Returns the pair
`(builtin_encoding, encoding)`.  Note line 209 tests the override with
`if self.explicit_encoding:` — truthiness, not an `is None` test. -/
def defineEncoding (rawLang : Nat) (explicit : Option String) :
    Except InitErr (Option String × Option String) :=
  let builtin := (encGet rawLang).map (fun p => p.1)
  if builtin = none ∧ explicit = none then
    .error (.cannotResolveEncoding rawLang)
  else if pyTruthyStr explicit then .ok (builtin, explicit)
  else .ok (builtin, builtin)

/-! ## Converter dispatch (reader.py `_makeActions`) -/

/-- The six converters of `_makeActions` (reader.py:90-107). -/
inductive Conv where
  | unicode
  | rawstring
  | decimal
  | integer
  | date
  | logic
  deriving DecidableEq

/-- The ordered `action_resolvers` tuple (reader.py:109-124), first match
wins.  `pyTruthyStr` mirrors the truthiness tests on `self.encoding`. -/
def resolveAction (enc : Option String) (typ : String) (dec : Nat) : Option Conv :=
  if typ = "C" ∧ pyTruthyStr enc = true then some .unicode
  else if typ = "C" ∧ pyTruthyStr enc = false then some .rawstring
  else if typ = "N" ∧ dec ≠ 0 then some .decimal
  else if typ = "N" ∧ dec = 0 then some .integer
  else if typ = "D" then some .date
  else if typ = "L" then some .logic
  else none

/-- The converter-table loop of `_makeActions` (reader.py:125-135):
for each field pick the first matching resolver or raise `ValueError`. -/
def makeActions (enc : Option String) (flds : List FieldDesc) :
    Except InitErr (List (String × Conv)) :=
  exMapM (fun f =>
    match resolveAction enc f.typ f.dec with
    | some c => .ok (f.name, c)
    | none => .error (.noConverter f.name)) flds

/-! ## Reader initialisation (reader.py `__init__`) -/

/-- The fully initialised reader state. -/
structure ReaderState where
  core : HeaderCore
  builtinEncoding : Option String
  encoding : Option String
  converters : List (String × Conv)
  deriving DecidableEq

/-- `YDbfReader.__init__` (reader.py:25-84): `_readHeader`, then
`_defineEncoding` when `use_unicode` is requested, then `_makeActions`.
When `use_unicode` is false both encodings stay `None`. -/
def readerInit (h : RawHeader) (descs : List RawFieldDesc) (term : Nat)
    (useUnicode : Bool) (explicitEnc : Option String) :
    Except InitErr ReaderState := do
  let core ← readHeader h descs term
  let encs ← if useUnicode then defineEncoding core.rawLang explicitEnc
             else pure (none, none)
  let convs ← makeActions encs.2 core.allFields
  pure ⟨core, encs.1, encs.2, convs⟩

/-- `YDbfReader.__len__` (reader.py:224-228): the header's record count. -/
def pyLen (st : ReaderState) : Nat :=
  st.core.numrec

/-- Per-field bound checks of `checkConsistency` round 2
(reader.py:337-358). -/
def fieldSizeOk (f : FieldDesc) : Bool :=
  (f.typ = "N" → f.size < 20) ∧ (f.typ = "C" → f.size < 255) ∧
    (f.typ = "L" → f.size = 1)

/-- `YDbfStrictReader.checkConsistency` (reader.py:315-374).  Asserts in
source order; `osSize` is the physical file size when the underlying
storage exposes one (`None` models both a nameless handle and an
`OSError` from `os.stat`, which the source swallows).  The
`numrec >= 0` assert cannot fire (the count is unpacked unsigned) and is
omitted. -/
def checkConsistency (st : ReaderState) (osSize : Option Nat) :
    Except InitErr Unit :=
  if ¬ (st.core.recsize > 1) then
    .error (.structuralCheckFailed "Length of record must be >1")
  else if (st.core.sig = 0x03 ∨ st.core.sig = 0x04) ∧ ¬ (st.core.recsize < 4000) then
    .error (.structuralCheckFailed "Length of record must be <4000 B for dBASE III and IV")
  else if ¬ (st.core.recsize < 32 * 1024) then
    .error (.structuralCheckFailed "Length of record must be <32KB")
  else if ¬ (0 < st.core.numfields) then
    .error (.structuralCheckFailed "The dbf file must have at least one field")
  else if st.core.sig = 0x03 ∧ ¬ (st.core.numfields < 128) then
    .error (.structuralCheckFailed "Number of fields in dBASE III must be <128")
  else if st.core.sig = 0x04 ∧ ¬ (st.core.numfields < 256) then
    .error (.structuralCheckFailed "Number of fields in dBASE IV must be <256")
  else if ¬ st.core.builtinFields.all fieldSizeOk then
    .error (.structuralCheckFailed "Size of field out of bounds")
  else
    match osSize with
    | none => .ok ()
    | some sz =>
        if sz = st.core.lenheader + 1 + st.core.numrec * st.core.recsize then .ok ()
        else .error (.structuralCheckFailed
          "Logical size should be equal to size of file")

/-- `YDbfReader.postInit` (reader.py:86-88) is a no-op. -/
def basePostInit (_ : ReaderState) : Except InitErr Unit :=
  .ok ()

/-- Initialisation of the permissive reader: `__init__` plus the no-op
`postInit`; no structural check ever runs. -/
def permissiveInit (h : RawHeader) (descs : List RawFieldDesc) (term : Nat)
    (useUnicode : Bool) (explicitEnc : Option String) :
    Except InitErr ReaderState := do
  let st ← readerInit h descs term useUnicode explicitEnc
  basePostInit st
  pure st

/-- Initialisation of `YDbfStrictReader` (reader.py:306-313): `__init__`
followed by `checkConsistency`. -/
def strictInit (h : RawHeader) (descs : List RawFieldDesc) (term : Nat)
    (useUnicode : Bool) (explicitEnc : Option String) (osSize : Option Nat) :
    Except InitErr ReaderState := do
  let st ← readerInit h descs term useUnicode explicitEnc
  checkConsistency st osSize
  pure st

/-! ## Record stream engine (reader.py `records`) -/

/-- Python values a converter can yield. -/
inductive PyVal where
  | str (s : String)
  | bytes (b : List Nat)
  | int (n : ℤ)
  | dec (d : PyDecimal)
  | date (d : CalDate)
  | pynone
  | bool (b : Bool)
  deriving DecidableEq

/-- A text codec's decode map (`bytes.decode(encoding)`), abstracting the
Python codec registry; `none` models `UnicodeDecodeError`. -/
def Codec : Type :=
  List Nat → Option String

/-- Unicode whitespace stripped by `str.rstrip()` (restricted to the ASCII
whitespace that DBF text data can contain). -/
def rstripStr (s : String) : String :=
  String.mk (((s.data.reverse.dropWhile (fun c => isSpaceB c.toNat))).reverse)

/-- Errors raised while converting one field's bytes.  `decodeError` is a
`UnicodeDecodeError` (re-raised as such by `records`, reader.py:268-286);
`convError` covers the `ValueError`-family failures that `records`
re-raises as `RuntimeError` (reader.py:287-291). -/
inductive ConvErr where
  | decodeError
  | convError
  deriving DecidableEq

/-- Apply one resolved converter (the closures of `_makeActions`,
reader.py:91-107) to a field's byte slice. -/
def applyConv (codec : Codec) : Conv → List Nat → Nat → Nat → Except ConvErr PyVal
  | .unicode, val, _, _ =>
      match codec val with
      | some s => .ok (.str (rstripStr s))
      | none => .error .decodeError
  | .rawstring, val, _, _ => .ok (.bytes (rstripB isSpaceB val))
  | .decimal, val, _, dec =>
      match dbf2py_decimal dec val with
      | some r => .ok (.dec r)
      | none => .error .convError
  | .integer, val, _, _ =>
      match dbf2py_integer val with
      | some n => .ok (.int n)
      | none => .error .convError
  | .date, val, _, _ =>
      match dbf2date (some val) with
      | .ok (some dt) => .ok (.date dt)
      | .ok none => .ok .pynone
      | .error _ => .error .convError
  | .logic, val, _, _ => .ok (.bool (dbf2py_logic val))

/-- One `(converter, name, size, dec)` entry of the `converters` tuple
built at the top of `records` (reader.py:253-256). -/
abbrev ConvEntry : Type :=
  Conv × String × Nat × Nat

/-- Split a raw record into per-field byte slices:
`struct.unpack(self.recfmt, ...)` where `recfmt` concatenates one `%ds`
per field (reader.py:190, 258).  One slice per field size. -/
def splitSizes : List Nat → List Nat → List (List Nat)
  | [], _ => []
  | n :: ns, bs => bs.take n :: splitSizes ns (bs.drop n)

/-- The record dictionary comprehension (reader.py:262-267): pair entries
with slices positionally, drop the `_deletion_flag` pair unless
`show_deleted`, strip trailing NULs from each kept slice and convert.
(The Python `dict(...)` collapses duplicate field names; the association
list keeps them, which agrees on membership of every name.) -/
def convertRecord (codec : Codec) (showD : Bool) :
    List ConvEntry → List (List Nat) → Except ConvErr (List (String × PyVal))
  | [], _ => .ok []
  | _, [] => .ok []
  | e :: es, v :: vs =>
      if e.2.1 ≠ "_deletion_flag" ∨ showD then do
        let pv ← applyConv codec e.1 (rstrip0 v) e.2.2.1 e.2.2.2
        let rest ← convertRecord codec showD es vs
        pure ((e.2.1, pv) :: rest)
      else convertRecord codec showD es vs

/-- Errors a `records` iteration step can raise. -/
inductive IterErr where
  | decodeErr
  | runtimeErr
  deriving DecidableEq

/-- One step of the `records` loop (reader.py:257-291): unpack the raw
record, skip it when its deletion-flag slice is not `b" "` and deleted
records were not requested (`.ok none`), otherwise convert it. -/
def recordStep (codec : Codec) (showD : Bool) (entries : List ConvEntry)
    (sizes : List Nat) (raw : List Nat) :
    Except IterErr (Option (List (String × PyVal))) :=
  let slices := splitSizes sizes raw
  if ¬ showD ∧ slices.head? ≠ some [32] then .ok none
  else
    match convertRecord codec showD entries slices with
    | .ok r => .ok (some r)
    | .error .decodeError => .error .decodeErr
    | .error .convError => .error .runtimeErr

/-- `YDbfReader.records` (reader.py:230-291) over the raw fixed-size
records of the iterated index range (the seek arithmetic that produces
this list is byte-level I/O and is abstracted away). -/
def pyRecords (codec : Codec) (showD : Bool) (entries : List ConvEntry)
    (sizes : List Nat) :
    List (List Nat) → Except IterErr (List (List (String × PyVal)))
  | [] => .ok []
  | raw :: rest => do
      let o ← recordStep codec showD entries sizes raw
      let rs ← pyRecords codec showD entries sizes rest
      match o with
      | some r => pure (r :: rs)
      | none => pure rs

/-- The `converters` tuple of `records` (reader.py:253-256) for an
initialised reader: `self.converters[name]` for each field of
`self._fields`.  `_makeActions` has installed a converter for every field
name, so the lookup never misses; the `.rawstring` default is
unreachable.  A duplicate field name resolves to the last assignment,
as in a Python dict. -/
def readerEntries (st : ReaderState) : List ConvEntry :=
  st.core.allFields.map (fun f =>
    (((st.converters.reverse.find? (fun p => p.1 = f.name)).map
        (fun p => p.2)).getD .rawstring,
      f.name, f.size, f.dec))

/-- `records` of an initialised reader over a list of raw records. -/
def readerRecords (codec : Codec) (st : ReaderState) (showD : Bool)
    (recs : List (List Nat)) : Except IterErr (List (List (String × PyVal))) :=
  pyRecords codec showD (readerEntries st) (st.core.allFields.map FieldDesc.size) recs

/-! ## Shared lemmas about initialisation -/

/-- A successfully read header carries the raw header values through:
language code, record count, header length, creation date, signature, and
the `_deletion_flag`-prefixed field list. -/
theorem readHeader_ok_fields (h : RawHeader) (descs : List RawFieldDesc) (term : Nat)
    (core : HeaderCore) (hok : readHeader h descs term = .ok core) :
    core.rawLang = h.lang ∧ core.numrec = h.numrec ∧ core.lenheader = h.lenheader ∧
    core.dt = ⟨normYear h.year, h.month, h.day⟩ ∧ core.sig = h.sig ∧
    core.allFields = deletionFlagField :: core.builtinFields := by
  unfold readHeader at hok
  split at hok
  · exact absurd hok (by simp)
  split at hok
  · exact absurd hok (by simp)
  split at hok
  · exact absurd hok (by simp)
  split at hok
  · exact absurd hok (by simp)
  cases hok
  simp

/-- Decomposition of a successful `readerInit`: the header was read into
`st.core`, and the encoding is the one `_defineEncoding` resolved (or
`None` when text mode is off). -/
theorem readerInit_ok_parts (h : RawHeader) (descs : List RawFieldDesc) (term : Nat)
    (uu : Bool) (enc : Option String) (st : ReaderState)
    (hok : readerInit h descs term uu enc = .ok st) :
    readHeader h descs term = .ok st.core ∧
    (uu = true → defineEncoding h.lang enc = .ok (st.builtinEncoding, st.encoding)) ∧
    (uu = false → st.encoding = none) := by
  unfold readerInit at hok
  cases hrh : readHeader h descs term with
  | error e => rw [hrh] at hok; simp [bind, Except.bind] at hok
  | ok core =>
    rw [hrh] at hok
    simp only [bind, Except.bind] at hok
    have hlang : core.rawLang = h.lang := (readHeader_ok_fields h descs term core hrh).1
    cases uu with
    | true =>
      rw [if_pos rfl] at hok
      cases hde : defineEncoding core.rawLang enc with
      | error e => rw [hde] at hok; simp at hok
      | ok p =>
        rw [hde] at hok
        dsimp only at hok
        cases hma : makeActions p.2 core.allFields with
        | error e => rw [hma] at hok; simp at hok
        | ok convs =>
          rw [hma] at hok
          dsimp only at hok
          simp only [pure, Except.pure, Except.ok.injEq] at hok
          subst hok
          refine ⟨rfl, fun _ => ?_, fun huu => by simp at huu⟩
          rw [← hlang, hde]
    | false =>
      rw [if_neg (by simp)] at hok
      simp only [pure, Except.pure] at hok
      cases hma : makeActions (none : Option String) core.allFields with
      | error e => rw [hma] at hok; simp at hok
      | ok convs =>
        rw [hma] at hok
        dsimp only at hok
        simp only [pure, Except.pure, Except.ok.injEq] at hok
        subst hok
        exact ⟨rfl, fun huu => by simp at huu, fun _ => rfl⟩

/-! ## Concrete sample inputs used by witnesses -/

/-- A valid dBASE III header: year byte 96, 1 record, header length 65
(one field descriptor), language code 0x01 (cp437). -/
def hdrW : RawHeader := ⟨3, 96, 1, 1, 1, 65, 21, 1⟩

/-- One descriptor: a Character field `NAME` of size 20. -/
def descW : RawFieldDesc := ⟨bytesOf "NAME" ++ List.replicate 7 0, 67, 20, 0⟩

/-- The resolved `NAME` field. -/
def nameFieldW : FieldDesc := ⟨"NAME", "C", 20, 0⟩

/-- The header state `readHeader hdrW [descW] 13` produces. -/
def coreW : HeaderCore :=
  ⟨3, ⟨1996, 1, 1⟩, 1, [nameFieldW], [deletionFlagField, nameFieldW], 21, 1, 65, 1, ["NAME"]⟩

/-- The reader state `readerInit hdrW [descW] 13 true none` produces. -/
def stW : ReaderState :=
  ⟨coreW, some "cp437", some "cp437", [("_deletion_flag", .unicode), ("NAME", .unicode)]⟩

/-! ## The claims -/

/-- C2: for every header whose signature byte is outside 0x03/0x04/0x05,
header reading fails — `readHeader` never returns a state, the whole
initialisation never returns a reader, and (whenever the creation date is
constructible, so that control reaches the signature check) the error is
precisely the unsupported-signature `ValueError` (the spec's FormatError). -/
theorem c2_unsupported_signature_rejected (h : RawHeader) (descs : List RawFieldDesc)
    (term : Nat) (hsig : h.sig ∉ SUPPORTED_SIGNATURES) :
    (∀ core, readHeader h descs term ≠ .ok core) ∧
    (∀ useUnicode enc st, readerInit h descs term useUnicode enc ≠ .ok st) ∧
    (dateOk (normYear h.year) h.month h.day = true →
      readHeader h descs term = .error (.unsupportedSignature h.sig)) := by
  have hfail : ∀ core, readHeader h descs term ≠ .ok core := by
    intro core hok
    unfold readHeader at hok
    split at hok
    · exact absurd hok (by simp)
    · exact absurd hok (by simp)
  refine ⟨hfail, ?_, ?_⟩
  · intro uu enc st hok
    exact hfail st.core (readerInit_ok_parts h descs term uu enc st hok).1
  · intro hdate
    unfold readHeader
    rw [if_neg (by simp [hdate]), if_pos hsig]

theorem c2_witness :
    (⟨0x30, 96, 1, 1, 0, 33, 0, 1⟩ : RawHeader).sig ∉ SUPPORTED_SIGNATURES ∧
    readHeader ⟨0x30, 96, 1, 1, 0, 33, 0, 1⟩ [] 13 = .error (.unsupportedSignature 0x30) :=
  ⟨by decide,
    (c2_unsupported_signature_rejected ⟨0x30, 96, 1, 1, 0, 33, 0, 1⟩ [] 13
      (by decide)).2.2 (by decide)⟩

/-- C5: the creation year stored by `readHeader` is the raw year byte plus
1900, plus a further 100 when that sum is below 1950; raw byte 8 gives
2008 and raw byte 96 gives 1996. -/
theorem c5_year_normalization :
    (∀ h descs term core, readHeader h descs term = Except.ok core →
      core.dt.y = normYear h.year) ∧
    normYear 8 = 2008 ∧ normYear 96 = 1996 ∧
    (∀ b, normYear b = if b + 1900 < 1950 then b + 1900 + 100 else b + 1900) := by
  refine ⟨?_, by decide, by decide, ?_⟩
  · intro h descs term core hok
    rw [(readHeader_ok_fields h descs term core hok).2.2.2.1]
  · intro b
    simp [normYear]

theorem c5_witness :
    readHeader hdrW [descW] 13 = .ok coreW ∧ coreW.dt.y = normYear 96 :=
  ⟨by decide, c5_year_normalization.1 hdrW [descW] 13 coreW (by decide)⟩

/-- C9: `len(reader)` is the record count declared in the file header —
independent of record data; concretely, a reader declaring 1 record whose
only record is deletion-flagged still has length 1 while iteration yields
no records. -/
theorem c9_len_is_declared_numrec :
    (∀ h descs term useUnicode enc st,
      readerInit h descs term useUnicode enc = .ok st → pyLen st = h.numrec) ∧
    ((readerInit hdrW [descW] 13 true none).toOption.map pyLen = some 1) ∧
    ((readerInit hdrW [descW] 13 true none).toOption.map
      (fun st => readerRecords (fun _ => none) st false [42 :: List.replicate 20 32]))
      = some (.ok []) := by
  refine ⟨?_, by decide, by decide⟩
  intro h descs term uu enc st hok
  have h1 := (readerInit_ok_parts h descs term uu enc st hok).1
  have h2 := (readHeader_ok_fields h descs term st.core h1).2.1
  simpa [pyLen] using h2

theorem c9_witness :
    readerInit hdrW [descW] 13 true none = .ok stW ∧ pyLen stW = 1 :=
  ⟨by decide, c9_len_is_declared_numrec.1 hdrW [descW] 13 true none stW (by decide)⟩

/-- C1 (amended): with text mode requested, (1) a mapped language code and
no override resolve to the catalog encoding; (2) a truthy (non-empty)
override always wins; (3) an unmapped code with no override fails with the
cannot-resolve-encoding `ValueError` (the spec's ConfigurationError).  The
amendment: an explicit but EMPTY override is falsy in Python and does not
win (see the counterexample). -/
theorem c1_encoding_resolution (h : RawHeader) (descs : List RawFieldDesc) (term : Nat) :
    (∀ p st, readerInit h descs term true none = .ok st →
      encGet h.lang = some p → st.encoding = some p.1) ∧
    (∀ expl st, readerInit h descs term true expl = .ok st →
      pyTruthyStr expl = true → st.encoding = expl) ∧
    (∀ core, readHeader h descs term = .ok core → encGet h.lang = none →
      readerInit h descs term true none = .error (.cannotResolveEncoding h.lang)) := by
  refine ⟨?_, ?_, ?_⟩
  · intro p st hok hlook
    have hde := (readerInit_ok_parts h descs term true none st hok).2.1 rfl
    unfold defineEncoding at hde
    rw [hlook] at hde
    simp [pyTruthyStr] at hde
    exact hde.2.symm
  · intro expl st hok htruthy
    have hde := (readerInit_ok_parts h descs term true expl st hok).2.1 rfl
    cases expl with
    | none => simp [pyTruthyStr] at htruthy
    | some s =>
      simp only [defineEncoding] at hde
      rw [if_neg (by simp)] at hde
      rw [if_pos htruthy] at hde
      simp at hde
      exact hde.2.symm
  · intro core hrh hnone
    have hlang : core.rawLang = h.lang := (readHeader_ok_fields h descs term core hrh).1
    have hde : defineEncoding core.rawLang none = .error (.cannotResolveEncoding h.lang) := by
      simp [defineEncoding, hlang, hnone]
    simp [readerInit, hrh, hde, bind, Except.bind]

set_option maxRecDepth 16000

/-- C1 counterexample to the claim as stated: opening `hdrW` (language
code 0x01, mapped to cp437) with `use_unicode=True` and the explicit
override `encoding=""` succeeds and resolves to `"cp437"`, not to the
supplied override — the override does not always win. -/
theorem c1_empty_override_cex :
    (readerInit hdrW [descW] 13 true (some "")).toOption.map (fun st => st.encoding)
      = some (some "cp437") ∧
    encGet hdrW.lang = some ("cp437", "DOS USA") ∧
    (some "cp437" : Option String) ≠ some "" := by
  refine ⟨by decide, by decide, by decide⟩

/-- C1 witness: the amended theorem applied to `hdrW`. -/
theorem c1_witness :
    stW.encoding = some "cp437" ∧ pyTruthyStr (some "cp437") = true :=
  ⟨(c1_encoding_resolution hdrW [descW] 13).1 ("cp437", "DOS USA") stW
      (by decide) (by decide),
    by decide⟩

/-- C7: for a successfully initialised reader whose storage exposes a
physical size `n` that differs from `header_length + 1 +
record_count * record_size`, strict mode fails with an `AssertionError`
(the spec's StructuralError) — `checkConsistency` errors and
`YDbfStrictReader` never initialises — while the permissive reader, which
runs no structural check, initialises to the same state. -/
theorem c7_strict_size_check (h : RawHeader) (descs : List RawFieldDesc) (term : Nat)
    (uu : Bool) (enc : Option String) (st : ReaderState) (n : Nat)
    (hok : readerInit h descs term uu enc = .ok st)
    (hn : n ≠ st.core.lenheader + 1 + st.core.numrec * st.core.recsize) :
    (∃ msg, checkConsistency st (some n) = .error (.structuralCheckFailed msg)) ∧
    (∀ st2, strictInit h descs term uu enc (some n) ≠ .ok st2) ∧
    permissiveInit h descs term uu enc = .ok st := by
  have hcc : ∃ msg, checkConsistency st (some n) = .error (.structuralCheckFailed msg) := by
    unfold checkConsistency
    repeat' split
    all_goals first
      | exact ⟨_, rfl⟩
      | (exact absurd (by assumption) hn)
      | simp_all
  refine ⟨hcc, ?_, ?_⟩
  · intro st2 hbad
    obtain ⟨msg, hmsg⟩ := hcc
    unfold strictInit at hbad
    rw [hok] at hbad
    simp only [bind, Except.bind] at hbad
    rw [hmsg] at hbad
    simp at hbad
  · unfold permissiveInit basePostInit
    rw [hok]
    simp [bind, Except.bind, pure, Except.pure]

/-- C7 witness: `stW` with physical size 88 (logical size is 87). -/
theorem c7_witness :
    readerInit hdrW [descW] 13 true none = .ok stW ∧
    (88 : Nat) ≠ stW.core.lenheader + 1 + stW.core.numrec * stW.core.recsize ∧
    (∃ msg, checkConsistency stW (some 88) = .error (.structuralCheckFailed msg)) ∧
    permissiveInit hdrW [descW] 13 true none = .ok stW := by
  refine ⟨by decide, by decide, ?_, ?_⟩
  · exact (c7_strict_size_check hdrW [descW] 13 true none stW 88 (by decide) (by decide)).1
  · exact (c7_strict_size_check hdrW [descW] 13 true none stW 88 (by decide) (by decide)).2.2

/-- C8 counterexample to the claim as stated: `ENCODINGS` maps both 0x4D
and 0x7A to the codec name `"cp936"`, and the dict comprehension building
`REVERSE_ENCODINGS` keeps the last insertion, so looking the name of 0x4D
up in the reverse table yields 0x7A, not 0x4D. -/
theorem c8_cex :
    encGet 0x4D = some ("cp936", "Chinese GBK (PRC)") ∧
    reverseEncGet "cp936" = some (0x7A, "Chinese Simplified (PRC, Singapore) Windows") ∧
    (0x7A : Nat) ≠ 0x4D := by
  refine ⟨by decide, by decide, by decide⟩

/-- C8 (amended): for every language code in the catalog EXCEPT 0x4D
(whose codec name is shadowed by 0x7A), looking up the code's encoding
name in the reverse table yields the code (and its label) back. -/
theorem c8_reverse_encodings (c : Nat) (p : String × String)
    (hc : encGet c = some p) (hne : c ≠ 0x4D) :
    reverseEncGet p.1 = some (c, p.2) := by
  unfold encGet at hc
  cases hf : ENCODINGS.find? (fun e => e.1 = c) with
  | none => rw [hf] at hc; simp at hc
  | some e =>
    rw [hf] at hc
    simp only [Option.map_some'] at hc
    have he1 : e.1 = c := by
      have := List.find?_some hf
      simpa using this
    have hmem : e ∈ ENCODINGS := List.mem_of_find?_eq_some hf
    subst he1
    cases hc
    fin_cases hmem <;> first | decide | (exact absurd rfl hne)

/-- C8 witness: round trip for 0xC9 / cp1251. -/
theorem c8_witness :
    reverseEncGet "cp1251" = some (0xC9, "Russian Windows") ∧ (0xC9 : Nat) ≠ 0x4D :=
  ⟨c8_reverse_encodings 0xC9 ("cp1251", "Russian Windows") (by decide) (by decide),
    by decide⟩

/-- C6 counterexample to the claim as stated: `b"00000000"` is neither
null, nor non-digit, nor of the wrong length, yet `dbf2date` does not
return a calendar date — `datetime.date(0, 0, 0)` raises `ValueError`. -/
theorem c6_cex :
    pyBytesIsdigit (bytesOf "00000000") = true ∧
    (bytesOf "00000000").length = 8 ∧
    dbf2date (some (bytesOf "00000000")) = .error () := by
  refine ⟨by decide, by decide, by decide⟩

/-- C6 (amended): `dbf2date` returns null exactly when the input is null,
not all-digit, or not exactly 8 bytes; for every other input whose digit
groups YYYY/MM/DD form a valid calendar date it returns that date, and
for the remaining (well-formed but calendar-invalid) inputs it raises
`ValueError` instead of returning. -/
theorem c6_parse_date :
    (dbf2date none = .ok none) ∧
    (∀ bs, pyBytesIsdigit bs = false ∨ bs.length ≠ 8 → dbf2date (some bs) = .ok none) ∧
    (∀ bs, pyBytesIsdigit bs = true → bs.length = 8 →
      (dateOk (digitsValB (bs.take 4)) (digitsValB ((bs.drop 4).take 2))
          (digitsValB (bs.drop 6)) = true →
        dbf2date (some bs) = .ok (some ⟨digitsValB (bs.take 4),
          digitsValB ((bs.drop 4).take 2), digitsValB (bs.drop 6)⟩)) ∧
      (dateOk (digitsValB (bs.take 4)) (digitsValB ((bs.drop 4).take 2))
          (digitsValB (bs.drop 6)) = false →
        dbf2date (some bs) = .error ())) := by
  refine ⟨rfl, ?_, ?_⟩
  · intro bs hbad
    rcases hbad with hb | hb
    · simp [dbf2date, hb]
    · simp [dbf2date, hb]
  · intro bs hdig hlen
    constructor
    · intro hok
      simp [dbf2date, hdig, hlen, hok]
    · intro hbad
      simp [dbf2date, hdig, hlen, hbad]

/-- C6 witness: the leap date 1996-02-29 parses. -/
theorem c6_witness :
    pyBytesIsdigit (bytesOf "19960229") = true ∧
    (bytesOf "19960229").length = 8 ∧
    dbf2date (some (bytesOf "19960229")) = .ok (some ⟨1996, 2, 29⟩) := by
  refine ⟨by decide, by decide, ?_⟩
  have h := ((c6_parse_date.2.2 (bytesOf "19960229") (by decide) (by decide)).1 (by decide))
  simpa using h

/-! ## Lemmas about record processing -/

/-- Dropping leading zeros of a zero-run prepended to a list. -/
theorem dropWhile_zero_replicate (k : Nat) (l : List Nat) :
    List.dropWhile (fun b => b = 0) (List.replicate k 0 ++ l) =
      List.dropWhile (fun b => b = 0) l := by
  induction k with
  | zero => simp
  | succ k ih => simp [List.replicate_succ, List.dropWhile_cons, ih]

/-- Stripping trailing NUL bytes erases any trailing NUL padding. -/
theorem rstrip0_append_nuls (bs : List Nat) (k : Nat) :
    rstrip0 (bs ++ List.replicate k 0) = rstrip0 bs := by
  unfold rstrip0 rstripB
  rw [List.reverse_append, List.reverse_replicate, dropWhile_zero_replicate]

/-- Record conversion depends on each slice only through its
NUL-stripped form, because every slice is `rstrip`ped before its
converter runs. -/
theorem convertRecord_respects_rstrip0 (codec : Codec) (showD : Bool) :
    ∀ (es : List ConvEntry) (vs1 vs2 : List (List Nat)),
      List.Forall₂ (fun a b => rstrip0 a = rstrip0 b) vs1 vs2 →
      convertRecord codec showD es vs1 = convertRecord codec showD es vs2 := by
  intro es
  induction es with
  | nil => intro vs1 vs2 _; cases vs1 <;> cases vs2 <;> rfl
  | cons e es ih =>
    intro vs1 vs2 h
    cases h with
    | nil => rfl
    | cons hab htail =>
      simp only [convertRecord]
      rw [hab, ih _ _ htail]

/-- `unpack` produces exactly one slice per field. -/
theorem splitSizes_length (sizes : List Nat) (raw : List Nat) :
    (splitSizes sizes raw).length = sizes.length := by
  induction sizes generalizing raw with
  | nil => rfl
  | cons s rest ih => simp [splitSizes, ih]

/-- Without `show_deleted`, no `_deletion_flag` pair survives the
comprehension filter. -/
theorem convertRecord_no_flag (codec : Codec) :
    ∀ (es : List ConvEntry) (vs : List (List Nat)) (r : List (String × PyVal)),
      convertRecord codec false es vs = .ok r →
      ∀ v, ("_deletion_flag", v) ∉ r := by
  intro es
  induction es with
  | nil =>
    intro vs r h v
    cases vs <;> (simp [convertRecord] at h; subst h; simp)
  | cons e es ih =>
    intro vs r h v
    cases vs with
    | nil =>
      simp [convertRecord] at h
      subst h
      simp
    | cons a l =>
      by_cases hname : e.2.1 = "_deletion_flag"
      · rw [convertRecord, if_neg (by simp [hname])] at h
        exact ih l r h v
      · rw [convertRecord, if_pos (Or.inl hname)] at h
        cases hc : applyConv codec e.1 (rstrip0 a) e.2.2.1 e.2.2.2 with
        | error err => rw [hc] at h; simp [bind, Except.bind] at h
        | ok pv =>
          rw [hc] at h
          cases hr : convertRecord codec false es l with
          | error err => rw [hr] at h; simp [bind, Except.bind] at h
          | ok rest =>
            rw [hr] at h
            simp [bind, Except.bind, pure, Except.pure] at h
            subst h
            intro hmem
            rcases List.mem_cons.mp hmem with heq | htl
            · exact hname (congrArg Prod.fst heq).symm
            · exact ih l rest hr v htl

/-- With `show_deleted`, a `_deletion_flag` entry paired with a slice
yields a `_deletion_flag` pair in the converted record. -/
theorem convertRecord_flag_present (codec : Codec) :
    ∀ (es : List ConvEntry) (vs : List (List Nat)) (r : List (String × PyVal)),
      convertRecord codec true es vs = .ok r →
      es.length ≤ vs.length →
      "_deletion_flag" ∈ es.map (fun e => e.2.1) →
      ∃ v, ("_deletion_flag", v) ∈ r := by
  intro es
  induction es with
  | nil => intro vs r _ _ hmem; simp at hmem
  | cons e es ih =>
    intro vs r h hlen hmem
    cases vs with
    | nil => simp at hlen
    | cons a l =>
      rw [convertRecord, if_pos (Or.inr rfl)] at h
      cases hc : applyConv codec e.1 (rstrip0 a) e.2.2.1 e.2.2.2 with
      | error err => rw [hc] at h; simp [bind, Except.bind] at h
      | ok pv =>
        rw [hc] at h
        cases hr : convertRecord codec true es l with
        | error err => rw [hr] at h; simp [bind, Except.bind] at h
        | ok rest =>
          rw [hr] at h
          simp [bind, Except.bind, pure, Except.pure] at h
          subst h
          by_cases hname : e.2.1 = "_deletion_flag"
          · exact ⟨pv, by simp [hname]⟩
          · have : "_deletion_flag" ∈ es.map (fun e => e.2.1) := by
              rcases List.mem_map.mp hmem with ⟨x, hx, hxe⟩
              rcases List.mem_cons.mp hx with rfl | hxtail
              · exact absurd hxe hname
              · exact List.mem_map.mpr ⟨x, hxtail, hxe⟩
            obtain ⟨v, hv⟩ := ih l rest hr (by simpa using Nat.le_of_succ_le_succ hlen) this
            exact ⟨v, List.mem_cons_of_mem _ hv⟩

/-- C3: (1) a record whose deletion-flag byte is not a space is skipped
when deleted records are not requested; (2) with deleted records
requested no record is ever skipped; (3) a yielded record contains the
synthetic `_deletion_flag` field exactly when deleted records are
requested (the field list starts with the synthetic flag field, as
`_readHeader` guarantees). -/
theorem c3_deleted_record_handling :
    (∀ (codec : Codec) entries sizes (b : Nat) bs, sizes.head? = some 1 → b ≠ 32 →
      recordStep codec false entries sizes (b :: bs) = .ok none) ∧
    (∀ (codec : Codec) entries sizes raw,
      recordStep codec true entries sizes raw ≠ .ok none) ∧
    (∀ (codec : Codec) showD entries sizes raw out,
      recordStep codec showD entries sizes raw = .ok (some out) →
      (entries.map (fun e => e.2.1)).head? = some "_deletion_flag" →
      entries.length ≤ sizes.length →
      ((∃ v, ("_deletion_flag", v) ∈ out) ↔ showD = true)) := by
  refine ⟨?_, ?_, ?_⟩
  · intro codec entries sizes b bs hhead hb
    cases sizes with
    | nil => simp at hhead
    | cons s rest =>
      have hs : s = 1 := by simpa using hhead
      subst hs
      rw [recordStep, if_pos ?_]
      refine ⟨by simp, ?_⟩
      simp [splitSizes, hb]
  · intro codec entries sizes raw h
    rw [recordStep, if_neg (by simp)] at h
    cases hc : convertRecord codec true entries (splitSizes sizes raw) with
    | ok r => rw [hc] at h; simp at h
    | error err => rw [hc] at h; cases err <;> simp at h
  · intro codec showD entries sizes raw out h hflag hlen
    rw [recordStep] at h
    split at h
    next hcond =>
      exact absurd h (by simp)
    next hcond =>
      cases hc : convertRecord codec showD entries (splitSizes sizes raw) with
      | error err => rw [hc] at h; cases err <;> simp at h
      | ok r =>
        rw [hc] at h
        simp at h
        subst h
        cases showD with
        | false =>
          refine ⟨fun hv2 => ?_, fun hfalse => by simp at hfalse⟩
          obtain ⟨v, hv⟩ := hv2
          exact absurd hv (convertRecord_no_flag codec entries _ r hc v)
        | true =>
          refine ⟨fun _ => rfl, fun _ => ?_⟩
          refine convertRecord_flag_present codec entries _ r hc ?_ ?_
          · rw [splitSizes_length]
            exact hlen
          · cases entries with
            | nil => simp at hflag
            | cons e es =>
              have : e.2.1 = "_deletion_flag" := by simpa using hflag
              simp [this]

/-- C3 witness: a deleted record (flag byte `*`) is skipped by default. -/
theorem c3_witness :
    recordStep (fun _ => none) false
      [(.rawstring, "_deletion_flag", 1, 0), (.rawstring, "NAME", 20, 0)]
      [1, 20] (42 :: List.replicate 20 32) = .ok none ∧
    ([1, 20] : List Nat).head? = some 1 ∧ (42 : Nat) ≠ 32 :=
  ⟨c3_deleted_record_handling.1 (fun _ => none)
      [(.rawstring, "_deletion_flag", 1, 0), (.rawstring, "NAME", 20, 0)]
      [1, 20] 42 (List.replicate 20 32) (by decide) (by decide),
    by decide, by decide⟩

/-- C10: trailing NUL bytes of a field slice are stripped before the
converter runs — appending NUL padding never changes `rstrip0`, and two
records whose slices agree modulo trailing NULs convert identically. -/
theorem c10_nul_stripping :
    (∀ bs k, rstrip0 (bs ++ List.replicate k 0) = rstrip0 bs) ∧
    (∀ (codec : Codec) showD es vs1 vs2,
      List.Forall₂ (fun a b => rstrip0 a = rstrip0 b) vs1 vs2 →
      convertRecord codec showD es vs1 = convertRecord codec showD es vs2) :=
  ⟨rstrip0_append_nuls, fun codec showD es vs1 vs2 h =>
    convertRecord_respects_rstrip0 codec showD es vs1 vs2 h⟩

/-- C10 witness: `b"AB\x00\x00"` and `b"AB"` decode identically. -/
theorem c10_witness :
    convertRecord (fun _ => none) true
      [(.rawstring, "_deletion_flag", 1, 0), (.rawstring, "NAME", 4, 0)]
      [[32], bytesOf "AB" ++ [0, 0]] =
    convertRecord (fun _ => none) true
      [(.rawstring, "_deletion_flag", 1, 0), (.rawstring, "NAME", 4, 0)]
      [[32], bytesOf "AB"] :=
  c10_nul_stripping.2 (fun _ => none) true
    [(.rawstring, "_deletion_flag", 1, 0), (.rawstring, "NAME", 4, 0)]
    [[32], bytesOf "AB" ++ [0, 0]] [[32], bytesOf "AB"]
    (.cons (by decide) (.cons (by decide) .nil))

/-! ## Lemmas about decimal rendering and parsing -/

/-- A rendered digit byte is an ASCII digit. -/
theorem isDigitB_digit (n : Nat) : isDigitB (48 + n % 10) = true := by
  have h : n % 10 < 10 := Nat.mod_lt _ (by norm_num)
  simp [isDigitB]
  omega

/-- Every rendered digit byte is an ASCII digit. -/
theorem digitsRevF_all_digit : ∀ (f n : Nat), (digitsRevF f n).all isDigitB = true := by
  intro f
  induction f with
  | zero => intro n; rfl
  | succ f ih =>
    intro n
    by_cases hn : n = 0
    · simp [digitsRevF, hn]
    · simp [digitsRevF, hn, List.all_cons, isDigitB_digit, ih]

/-- A number below `10 ^ k` renders in at most `k` digits. -/
theorem digitsRevF_length_le : ∀ (f n k : Nat), n ≤ f → n < 10 ^ k →
    (digitsRevF f n).length ≤ k := by
  intro f
  induction f with
  | zero => intro n k _ _; simp [digitsRevF]
  | succ f ih =>
    intro n k hnf hnk
    by_cases hn : n = 0
    · simp [digitsRevF, hn]
    · cases k with
      | zero => simp at hnk; omega
      | succ k =>
        have h1 : n / 10 ≤ f := by
          have : n / 10 < n := Nat.div_lt_self (by omega) (by norm_num)
          omega
        have h2 : n / 10 < 10 ^ k := by
          rw [Nat.div_lt_iff_lt_mul (by norm_num)]
          calc n < 10 ^ (k + 1) := hnk
          _ = 10 ^ k * 10 := by ring
        have := ih (n / 10) k h1 h2
        simp [digitsRevF, hn]
        omega

/-- A rendered natural consists of ASCII digits. -/
theorem natStr_all_digit (n : Nat) : (natStr n).all isDigitB = true := by
  unfold natStr
  by_cases hn : n = 0
  · simp [hn]; decide
  · simp [hn, List.all_reverse, digitsRevF_all_digit]

/-- A rendered natural is never the empty string. -/
theorem natStr_ne_nil (n : Nat) : natStr n ≠ [] := by
  unfold natStr
  by_cases hn : n = 0
  · simp [hn]
  · simp only [hn, if_false]
    cases n with
    | zero => exact absurd rfl hn
    | succ m => simp [digitsRevF]

/-- Length bound for rendered naturals. -/
theorem natStr_length_le (n k : Nat) (hk : 0 < k) (h : n < 10 ^ k) :
    (natStr n).length ≤ k := by
  unfold natStr
  by_cases hn : n = 0
  · simp [hn]; omega
  · simp only [hn, if_false, List.length_reverse]
    exact digitsRevF_length_le n n k le_rfl h

/-- Zero-padding reaches exactly the requested width. -/
theorem padZeros_length (d : Nat) (l : List Nat) (h : l.length ≤ d) :
    (padZeros d l).length = d := by
  simp [padZeros]
  omega

/-- Zero-padding preserves digit-ness. -/
theorem padZeros_all_digit (d : Nat) (l : List Nat) (h : l.all isDigitB = true) :
    (padZeros d l).all isDigitB = true := by
  simp [padZeros, List.all_append, h]
  right
  decide

/-- The digit prefix of `digits ++ point ++ rest` is exactly `digits`. -/
theorem takeWhile_digits_append (l r : List Nat) (hl : l.all isDigitB = true) :
    (l ++ 46 :: r).takeWhile isDigitB = l := by
  induction l with
  | nil =>
    have h46 : isDigitB 46 = false := by decide
    simp [List.takeWhile_cons, h46]
  | cons a t ih =>
    simp only [List.all_cons, Bool.and_eq_true] at hl
    simp [List.takeWhile_cons, hl.1, ih hl.2]

/-- Dropping the digit prefix of `digits ++ point ++ rest`. -/
theorem dropWhile_digits_append (l r : List Nat) (hl : l.all isDigitB = true) :
    (l ++ 46 :: r).dropWhile isDigitB = 46 :: r := by
  induction l with
  | nil =>
    have h46 : isDigitB 46 = false := by decide
    simp [List.dropWhile_cons, h46]
  | cons a t ih =>
    simp only [List.all_cons, Bool.and_eq_true] at hl
    simp [List.dropWhile_cons, hl.1, ih hl.2]

/-- `Decimal(...)` parsing of a well-formed fixed-point numeral yields
the concatenated digit value and the fractional length as the scale. -/
theorem parseDecAux_digits (neg : Bool) (ip fr : List Nat)
    (hip : ip ≠ []) (hipd : ip.all isDigitB = true) (hfrd : fr.all isDigitB = true) :
    parseDecAux neg (ip ++ 46 :: fr) =
      some ⟨condNeg neg (digitsValB (ip ++ fr)), fr.length⟩ := by
  unfold parseDecAux
  rw [takeWhile_digits_append ip fr hipd, dropWhile_digits_append ip fr hipd]
  simp [hfrd, List.isEmpty_iff, hip]

/-- Lower-casing leaves an ASCII-digit head byte unchanged. -/
theorem asciiLower_digit_cons (b : Nat) (l : List Nat) (hb : isDigitB b = true) :
    asciiLower (b :: l) = b :: asciiLower l := by
  simp only [isDigitB, Bool.and_eq_true, decide_eq_true_eq] at hb
  simp only [asciiLower, List.map_cons, List.cons.injEq]
  refine ⟨?_, trivial⟩
  rw [if_neg]
  simp only [Bool.and_eq_true, decide_eq_true_eq, not_and]
  omega

/-- A token starting with an ASCII digit is not an `inf`/`infinity`/`nan`
token, even after lower-casing. -/
theorem digit_head_not_special (b : Nat) (l : List Nat) (hb : isDigitB b = true) :
    ¬ (asciiLower (b :: l) = bytesOf "inf" ∨ asciiLower (b :: l) = bytesOf "infinity") ∧
    asciiLower (b :: l) ≠ bytesOf "nan" := by
  have hb2 : b ≤ 57 := by
    simp only [isDigitB, Bool.and_eq_true, decide_eq_true_eq] at hb
    omega
  rw [asciiLower_digit_cons b l hb]
  have h1 : bytesOf "inf" = 105 :: [110, 102] := by decide
  have h2 : bytesOf "infinity" = 105 :: [110, 102, 105, 110, 105, 116, 121] := by decide
  have h3 : bytesOf "nan" = 110 :: [97, 110] := by decide
  refine ⟨?_, ?_⟩
  · rintro (hc | hc)
    · rw [h1] at hc
      injection hc with hh _
      omega
    · rw [h2] at hc
      injection hc with hh _
      omega
  · intro hc
    rw [h3] at hc
    injection hc with hh _
    omega

/-- `Decimal(...)` parsing of an optionally signed, digit-headed token
reduces to the plain fixed-point parser. -/
theorem parseDecimalStr_digit (neg : Bool) (b : Nat) (l : List Nat)
    (hb : isDigitB b = true) :
    parseDecimalStr ((if neg then [45] else []) ++ b :: l) =
      (parseDecAux neg (b :: l)).map PyDecimal.fin := by
  have hspecial := digit_head_not_special b l hb
  have hb2 : 48 ≤ b ∧ b ≤ 57 := by
    simpa [isDigitB] using hb
  cases neg with
  | true =>
    show parseDecimalStr (45 :: b :: l) = (parseDecAux true (b :: l)).map PyDecimal.fin
    unfold parseDecimalStr
    rw [if_neg (by simp)]
    rw [show splitSign (45 :: b :: l) = (true, b :: l) from by simp [splitSign]]
    dsimp only
    rw [if_neg hspecial.1, if_neg hspecial.2]
  | false =>
    show parseDecimalStr (b :: l) = (parseDecAux false (b :: l)).map PyDecimal.fin
    unfold parseDecimalStr
    rw [if_neg (by simp)]
    have h45 : b ≠ 45 := by omega
    have h43 : b ≠ 43 := by omega
    rw [show splitSign (b :: l) = (false, b :: l) from by simp [splitSign, h45, h43]]
    dsimp only
    rw [if_neg hspecial.1, if_neg hspecial.2]

/-- Whatever FINITE double `x` is handed to it, the string produced by
percent-dot-d-f formatting with `d > 0` parses to a finite `Decimal`
with exactly `d` fractional digits. -/
theorem parseDecimalStr_formatF_scale (d : Nat) (x : Frac) (hd : 0 < d)
    (res : PyDecimal)
    (h : parseDecimalStr (formatF d (PyFloat.finite x)) = some res) :
    ∃ r, res = PyDecimal.fin r ∧ r.scale = d := by
  simp only [formatF] at h
  rw [if_neg (show ¬ d = 0 by omega)] at h
  set m := roundHalfEven (fMul x ⟨((10 ^ d : ℕ) : ℤ), 1⟩) with hm
  set a := m.natAbs with ha
  set ip := natStr (a / 10 ^ d) with hip
  set frDigits := natStr (a % 10 ^ d) with hfrD
  set fr := padZeros d frDigits with hfr
  have hipne : ip ≠ [] := natStr_ne_nil _
  have hipd : ip.all isDigitB = true := natStr_all_digit _
  have hfrd : fr.all isDigitB = true :=
    padZeros_all_digit d frDigits (natStr_all_digit _)
  have hfrlen : fr.length = d := by
    refine padZeros_length d frDigits ?_
    refine natStr_length_le _ d hd ?_
    exact Nat.mod_lt _ (Nat.pos_pow_of_pos d (by norm_num))
  cases hipc : ip with
  | nil => exact absurd hipc hipne
  | cons i0 it =>
    have hi0 : isDigitB i0 = true := by
      have := hipd
      rw [hipc] at this
      simp only [List.all_cons, Bool.and_eq_true] at this
      exact this.1
    by_cases hneg : m < 0
    · rw [if_pos hneg, hipc] at h
      rw [show ((i0 :: it) ++ 46 :: fr) = i0 :: (it ++ 46 :: fr) from rfl] at h
      have hred : parseDecimalStr (45 :: i0 :: (it ++ 46 :: fr)) =
          (parseDecAux true (i0 :: (it ++ 46 :: fr))).map PyDecimal.fin :=
        parseDecimalStr_digit true i0 (it ++ 46 :: fr) hi0
      rw [hred] at h
      rw [show (i0 :: (it ++ 46 :: fr)) = ((i0 :: it) ++ 46 :: fr) from rfl] at h
      rw [parseDecAux_digits true (i0 :: it) fr (by simp)
        (by rw [← hipc]; exact hipd) hfrd] at h
      simp only [Option.map_some'] at h
      exact ⟨⟨condNeg true (digitsValB ((i0 :: it) ++ fr)), fr.length⟩,
        (Option.some.inj h).symm, hfrlen⟩
    · rw [if_neg hneg, hipc] at h
      rw [show ((i0 :: it) ++ 46 :: fr) = i0 :: (it ++ 46 :: fr) from rfl] at h
      have hred : parseDecimalStr (i0 :: (it ++ 46 :: fr)) =
          (parseDecAux false (i0 :: (it ++ 46 :: fr))).map PyDecimal.fin :=
        parseDecimalStr_digit false i0 (it ++ 46 :: fr) hi0
      rw [hred] at h
      rw [show (i0 :: (it ++ 46 :: fr)) = ((i0 :: it) ++ 46 :: fr) from rfl] at h
      rw [parseDecAux_digits false (i0 :: it) fr (by simp)
        (by rw [← hipc]; exact hipd) hfrd] at h
      simp only [Option.map_some'] at h
      exact ⟨⟨condNeg false (digitsValB ((i0 :: it) ++ fr)), fr.length⟩,
        (Option.some.inj h).symm, hfrlen⟩

/-- An all-blank byte string strips to empty. -/
theorem stripWsB_replicate_space (n : Nat) : stripWsB (List.replicate n 32) = [] := by
  unfold stripWsB rstripB
  have hdrop : List.dropWhile isSpaceB (List.replicate n 32) = [] := by
    induction n with
    | zero => rfl
    | succ k ih => simp [List.replicate_succ, List.dropWhile_cons, ih]; decide
  rw [hdrop]
  rfl

/-- C4 counterexample to the claim as stated: a Numeral field with
decimal count 2 containing `b"inf"` decodes SUCCESSFULLY — CPython
`float(b"inf")` is infinite, percent-formatting renders it `inf`, and
`Decimal("inf")` is `Infinity` — but the result is not a fixed-point
decimal with 2 fractional digits: it has no fixed-point scale at all.
Signed/spelled-out variants and nan behave alike, and a plain numeral
beyond the binary64 range overflows to the same `Infinity`. -/
theorem c4_infinity_cex :
    dbf2py_decimal 2 (bytesOf "inf") = some (PyDecimal.inf false) ∧
    decScale (dbf2py_decimal 2 (bytesOf "inf")) = none ∧
    dbf2py_decimal 2 (bytesOf " -Infinity") = some (PyDecimal.inf true) ∧
    dbf2py_decimal 2 (bytesOf "nan") = some PyDecimal.nan ∧
    dbf2py_decimal 2 (bytesOf "2e308") = some (PyDecimal.inf false) := by
  refine ⟨by decide, by decide, by decide, by decide, by decide⟩

/-- C4 (amended): an all-blank Numeral field with decimal count 0 decodes
to the integer 0 (any width, in particular 19); every decode of a
Numeral field with nonzero decimal count `d` that yields a FINITE value
is an exact fixed-point decimal with exactly `d` fractional digits — in
particular two spaces followed by 12.50 at `d = 2` gives exactly
coefficient 1250 at scale 2, the exact value 12.50 and not a binary-float
approximation.  (Field bytes spelling an IEEE special value, or a
numeral overflowing binary64, decode to `Decimal` Infinity/NaN instead,
which carry no fixed-point scale — see the counterexample.) -/
theorem c4_numeral_decoding :
    (∀ n, dbf2py_integer (List.replicate n 32) = some 0) ∧
    (∀ d val r, 0 < d → dbf2py_decimal d val = some (PyDecimal.fin r) →
      r.scale = d) ∧
    dbf2py_decimal 2 (bytesOf "  12.50") = some (PyDecimal.fin ⟨1250, 2⟩) ∧
    (⟨1250, 2⟩ : PyDec).val = 25 / 2 := by
  refine ⟨?_, ?_, by decide, ?_⟩
  · intro n
    unfold dbf2py_integer
    rw [stripWsB_replicate_space]
    rfl
  · intro d val r hd h
    unfold dbf2py_decimal at h
    split at h
    · simp at h
    · rename_i x heq
      cases x with
      | finite f =>
        obtain ⟨r2, hr2, hs⟩ := parseDecimalStr_formatF_scale d f hd _ h
        injection hr2 with hr3
        rw [hr3]
        exact hs
      | inf neg =>
        cases neg with
        | false =>
          rw [show formatF d (PyFloat.inf false) = bytesOf "inf" from rfl] at h
          rw [show parseDecimalStr (bytesOf "inf") = some (PyDecimal.inf false)
            from by decide] at h
          simp at h
        | true =>
          rw [show formatF d (PyFloat.inf true) = 45 :: bytesOf "inf" from rfl] at h
          rw [show parseDecimalStr (45 :: bytesOf "inf") = some (PyDecimal.inf true)
            from by decide] at h
          simp at h
      | nan =>
        rw [show formatF d PyFloat.nan = bytesOf "nan" from rfl] at h
        rw [show parseDecimalStr (bytesOf "nan") = some PyDecimal.nan
          from by decide] at h
        simp at h
  · show ((1250 : ℤ) : ℚ) / ((10 ^ 2 : Nat) : ℚ) = 25 / 2
    norm_num

/-- C4 witness: the nonzero-decimal theorem applied at the 12.50 input. -/
theorem c4_witness :
    (0 : Nat) < 2 ∧ (⟨1250, 2⟩ : PyDec).scale = 2 :=
  ⟨by decide, c4_numeral_decoding.2.1 2 (bytesOf "  12.50") ⟨1250, 2⟩
    (by decide) (by decide)⟩
